import Mathlib

/-!
# Verification of the Book Recommendation System core

Shallow embedding of the two core functions of `src/streamlit_app.py`:

* `fuse_neighbors_streamlit` (the Neighbor Fusion Engine), and
* `search_books_streamlit` (the Title Resolver),

together with proofs of the behavioural properties stated in the
specification.

Modelling conventions:

* The loaded catalog (`books_df`) is a `List Book` in DataFrame row order.
* A pandas boolean-mask row selection (`df[df['book_id'] == x]`, `df[mask]`,
  `isin`) is a `List.filter` over the rows in row order; `.iloc[0]` on the
  selection is `List.find?`.
* SQL `ORDER BY c DESC LIMIT n` and pandas `sort_values` are modelled as a
  stable sort (`List.insertionSort`) followed by `List.take`.  Neither SQLite
  nor pandas' default quicksort guarantees an order among ties, and the spec
  explicitly declares tie order non-guaranteed; on the distinct sort keys that
  actually occur in the verified statements the output of any correct sort is
  unique, so this choice is harmless.
* Python dicts built by comprehensions (`rank_map`, `source_map`) are modelled
  as functions produced by inserting the (key, value) pairs left to right,
  a later pair overwriting an earlier one.
* The external full-text index (SQLite FTS5 `MATCH`) and the external fuzzy
  scorer (`rapidfuzz`) are black-box collaborators; they enter the embedding
  as parameters (`ftsMatch`, `score`).  The FTS5 query-string *syntax* is
  modelled separately (see `fts5ScanAux`) for the escaping claim.
-/

namespace BookRec

/-- Provenance tag of a fused recommendation: `"Source: Description"` or
`"Source: Popular Shelves"` in the source. -/
inductive Source where
  | description
  | popularShelves
deriving DecidableEq

/-- One row of `books_df` after `load_app_data` decoded the JSON neighbor-list
columns: `book_id`, `title`, `average_rating`, `ratings_count`, and the two
ordered precomputed neighbor-id lists.  (`similar_books_filtered` is never
read by the two core functions and is omitted.)  The float rating is carried
as a `Rat`; no verified statement computes with it. -/
structure Book where
  book_id : Nat
  title : String
  average_rating : Rat
  ratings_count : Nat
  top_desc_neighbors_ids : List Nat
  top_shelf_neighbors_ids : List Nat
deriving DecidableEq

/-- `books_df[books_df['book_id'] == bid]` followed by `.iloc[0]`: the first
catalog row with the given id, if any (`.empty` corresponds to `none`). -/
def findBook (catalog : List Book) (bid : Nat) : Option Book :=
  catalog.find? (fun b => b.book_id == bid)

/-- A Python dict built by inserting (key, value) pairs left to right into an
initial table `d`; a later pair with the same key overwrites an earlier one. -/
def dictInsertAll (ps : List (Nat × β)) (d : Nat → Option β) : Nat → Option β :=
  ps.foldl (fun t p => fun b => if b == p.1 then some p.2 else t b) d

/-- The dict comprehension over a pair list, as a lookup function. -/
def dictOf (ps : List (Nat × β)) : Nat → Option β :=
  dictInsertAll ps (fun _ => none)

/-- `enumerate(ids)` with each element paired with its index, keyed by the
element — the pair list underlying
`rank_map = dict((bid, i) for i, bid in enumerate(fused_recommendations_ids))`
(written as a comprehension in the source).  `i` is the running index. -/
def rankPairs (i : Nat) : List Nat → List (Nat × Nat)
  | [] => []
  | bid :: rest => (bid, i) :: rankPairs (i + 1) rest

/-- `rank_map` of `fuse_neighbors_streamlit` (line 145). -/
def rank_map (ids : List Nat) : Nat → Option Nat :=
  dictOf (rankPairs 0 ids)

/-- The `_rank` sort key of a catalog row: the rank of its id, with ids
missing from `rank_map` (a `NaN` rank in pandas) sorting last. -/
def rankKey (ids : List Nat) (bid : Nat) : Nat :=
  (rank_map ids bid).getD ids.length

/-- Comparison used to model `matched_df.sort_values("_rank")`. -/
def byRank (ids : List Nat) (a b : Book) : Prop :=
  rankKey ids a.book_id ≤ rankKey ids b.book_id

instance (ids : List Nat) : DecidableRel (byRank ids) := fun a b =>
  inferInstanceAs (Decidable (rankKey ids a.book_id ≤ rankKey ids b.book_id))

/-- One tier-fill loop of `fuse_neighbors_streamlit` (lines 122–128 for the
description tier, 132–138 for the shelf tier): iterate the stored neighbor
list, and for each id not already in `added_ids_set` (which always holds
exactly the ids of `acc`) append `(bid, src)`; after an append, break as soon
as the output length has reached `k`.  Note the source tests the length
*after* appending, so even with `k = 0` a first element is appended. -/
def fillTier (src : Source) (k : Nat) : List Nat → List (Nat × Source) → List (Nat × Source)
  | [], acc => acc
  | bid :: rest, acc =>
    if (acc.map Prod.fst).contains bid then
      fillTier src k rest acc
    else
      if k ≤ (acc ++ [(bid, src)]).length then acc ++ [(bid, src)]
      else fillTier src k rest (acc ++ [(bid, src)])

/-- The selection phase of `fuse_neighbors_streamlit` (lines 117–138): the
parallel lists `fused_recommendations_ids` / `fused_recommendations_sources`,
kept as one list of pairs.  Tier 1 fills from `top_desc_neighbors_ids`;
tier 2 runs only while the output is still shorter than `k` and fills from
`top_shelf_neighbors_ids`. -/
def fusePairs (qb : Book) (k : Nat) : List (Nat × Source) :=
  let t1 := fillTier Source.description k qb.top_desc_neighbors_ids []
  if t1.length < k then
    fillTier Source.popularShelves k qb.top_shelf_neighbors_ids t1
  else t1

/-- One row of the DataFrame returned by `fuse_neighbors_streamlit`
(columns `title, average_rating, ratings_count, book_id, source`).  The
`source` column is the dict lookup `source_map.get(book_id)`; `none` would be
pandas `NaN`. -/
structure FusedRec where
  title : String
  average_rating : Rat
  ratings_count : Nat
  book_id : Nat
  source : Option Source
deriving DecidableEq

/-- Result of a fusion call: the returned DataFrame rows, plus whether the
`st.warning(... not found ...)` signal was emitted (the "book not found"
reason, which distinguishes an unknown id from a book without neighbors). -/
structure FuseResult where
  bookNotFound : Bool
  rows : List FusedRec
deriving DecidableEq

/-- `fuse_neighbors_streamlit` (lines 107–156).  Looks up the query book;
if absent, warns and returns an empty frame.  Otherwise fills the two tiers,
returns empty on no neighbors, and hydrates: `books_df` rows whose id is in
the fused list (`isin`, in catalog row order), sorted by the `_rank` column,
with the `source` column mapped from `source_map`. -/
def fuse_neighbors_streamlit (catalog : List Book) (query_book_id : Nat) (k : Nat) :
    FuseResult :=
  match findBook catalog query_book_id with
  | none => ⟨true, []⟩
  | some qb =>
    let pairs := fusePairs qb k
    let ids := pairs.map Prod.fst
    if ids.isEmpty then ⟨false, []⟩
    else
      let matched := catalog.filter (fun b => ids.contains b.book_id)
      let ranked := matched.insertionSort (byRank ids)
      let source_map := dictOf pairs
      ⟨false, ranked.map (fun b =>
        ⟨b.title, b.average_rating, b.ratings_count, b.book_id, source_map b.book_id⟩)⟩

/-! ## Dict and rank lemmas -/

theorem dictInsertAll_lookup (ps : List (Nat × β)) (d : Nat → Option β) (b : Nat) :
    dictInsertAll ps d b =
      ((ps.reverse.find? (fun p => p.1 == b)).map Prod.snd).or (d b) := by
  induction ps generalizing d with
  | nil => simp [dictInsertAll]
  | cons p ps ih =>
    have hstep : dictInsertAll (p :: ps) d =
        dictInsertAll ps (fun b2 => if b2 == p.1 then some p.2 else d b2) := rfl
    rw [hstep, ih]
    simp only [List.reverse_cons, List.find?_append]
    cases hx : ps.reverse.find? (fun q => q.1 == b) with
    | some q => simp [hx]
    | none =>
      simp only [hx, Option.map_none, Option.none_or, List.find?]
      by_cases hb : p.1 = b
      · subst hb
        simp
      · have hb1 : (p.1 == b) = false := beq_false_of_ne hb
        have hb2 : (b == p.1) = false := beq_false_of_ne (Ne.symm hb)
        simp [hb1, hb2]

theorem dictOf_lookup (ps : List (Nat × β)) (b : Nat) :
    dictOf ps b = (ps.reverse.find? (fun p => p.1 == b)).map Prod.snd := by
  rw [dictOf, dictInsertAll_lookup]
  simp

theorem find?_key_of_mem {ps : List (Nat × β)} (hk : (ps.map Prod.fst).Nodup)
    {b : Nat} {v : β} (hm : (b, v) ∈ ps) :
    ps.find? (fun p => p.1 == b) = some (b, v) := by
  induction ps with
  | nil => cases hm
  | cons p ps ih =>
    simp only [List.map_cons, List.nodup_cons] at hk
    rcases List.mem_cons.mp hm with h | h
    · subst h
      simp [List.find?]
    · have hne : p.1 ≠ b := by
        intro hcontra
        exact hk.1 (hcontra ▸ List.mem_map_of_mem Prod.fst h)
      have hfalse : (p.1 == b) = false := beq_false_of_ne hne
      simp only [List.find?, hfalse]
      exact ih hk.2 h

theorem dictOf_of_mem {ps : List (Nat × β)} (hk : (ps.map Prod.fst).Nodup)
    {b : Nat} {v : β} (hm : (b, v) ∈ ps) :
    dictOf ps b = some v := by
  rw [dictOf_lookup]
  have hk2 : (ps.reverse.map Prod.fst).Nodup := by
    rw [List.map_reverse]
    exact List.nodup_reverse.mpr hk
  rw [find?_key_of_mem hk2 (List.mem_reverse.mpr hm)]
  rfl

theorem rankPairs_keys (i : Nat) (ids : List Nat) :
    (rankPairs i ids).map Prod.fst = ids := by
  induction ids generalizing i with
  | nil => rfl
  | cons bid rest ih => simp [rankPairs, ih]

theorem rankPairs_mem (i : Nat) (ids : List Nat) (j : Nat) (h : j < ids.length) :
    (ids.get ⟨j, h⟩, i + j) ∈ rankPairs i ids := by
  induction ids generalizing i j with
  | nil => cases h
  | cons bid rest ih =>
    cases j with
    | zero => simp [rankPairs]
    | succ j2 =>
      have := ih (i + 1) j2 (Nat.lt_of_succ_lt_succ h)
      rw [rankPairs]
      refine List.mem_cons_of_mem _ ?_
      have harith : i + (j2 + 1) = (i + 1) + j2 := by omega
      simpa [harith] using this

theorem rank_map_get (ids : List Nat) (hids : ids.Nodup) (j : Nat) (h : j < ids.length) :
    rank_map ids (ids.get ⟨j, h⟩) = some j := by
  have hk : ((rankPairs 0 ids).map Prod.fst).Nodup := by
    rw [rankPairs_keys]; exact hids
  have hm := rankPairs_mem 0 ids j h
  rw [Nat.zero_add] at hm
  exact dictOf_of_mem hk hm

theorem rankKey_get (ids : List Nat) (hids : ids.Nodup) (j : Nat) (h : j < ids.length) :
    rankKey ids (ids.get ⟨j, h⟩) = j := by
  rw [rankKey, rank_map_get ids hids j h]
  rfl

/-! ## Tier-fill loop lemmas -/

theorem length_le_of_nodup_subset [DecidableEq α] {l1 l2 : List α}
    (h1 : l1.Nodup) (hsub : l1 ⊆ l2) : l1.length ≤ l2.length := by
  calc l1.length = l1.toFinset.card := (List.toFinset_card_of_nodup h1).symm
    _ ≤ l2.toFinset.card := by
        refine Finset.card_le_card ?_
        intro a ha
        rw [List.mem_toFinset] at ha ⊢
        exact hsub ha
    _ ≤ l2.length := List.toFinset_card_le l2

theorem fillTier_nil (src : Source) (k : Nat) (acc : List (Nat × Source)) :
    fillTier src k [] acc = acc := rfl

theorem fillTier_cons_old (src : Source) (k bid : Nat) (rest : List Nat)
    (acc : List (Nat × Source)) (hc : (acc.map Prod.fst).contains bid = true) :
    fillTier src k (bid :: rest) acc = fillTier src k rest acc := by
  rw [fillTier]
  simp only [hc, if_true]

theorem fillTier_cons_stop (src : Source) (k bid : Nat) (rest : List Nat)
    (acc : List (Nat × Source)) (hc : ¬ (acc.map Prod.fst).contains bid = true)
    (hk : k ≤ acc.length + 1) :
    fillTier src k (bid :: rest) acc = acc ++ [(bid, src)] := by
  rw [fillTier]
  have hk2 : k ≤ (acc ++ [(bid, src)]).length := by
    simp only [List.length_append, List.length_cons, List.length_nil]
    omega
  simp only [hc, Bool.false_eq_true, if_false, hk2, if_true]

theorem fillTier_cons_go (src : Source) (k bid : Nat) (rest : List Nat)
    (acc : List (Nat × Source)) (hc : ¬ (acc.map Prod.fst).contains bid = true)
    (hk : ¬ k ≤ acc.length + 1) :
    fillTier src k (bid :: rest) acc = fillTier src k rest (acc ++ [(bid, src)]) := by
  rw [fillTier]
  have hk2 : ¬ k ≤ (acc ++ [(bid, src)]).length := by
    simp only [List.length_append, List.length_cons, List.length_nil]
    omega
  simp only [hc, Bool.false_eq_true, if_false, hk2]

theorem fillTier_append (src : Source) (k : Nat) (l : List Nat)
    (acc : List (Nat × Source)) :
    ∃ tail, fillTier src k l acc = acc ++ tail ∧ ∀ p ∈ tail, p.2 = src := by
  induction l generalizing acc with
  | nil => exact ⟨[], by simp [fillTier_nil]⟩
  | cons bid rest ih =>
    by_cases hc : (acc.map Prod.fst).contains bid
    · rw [fillTier_cons_old src k bid rest acc hc]
      exact ih acc
    · by_cases hk : k ≤ acc.length + 1
      · rw [fillTier_cons_stop src k bid rest acc hc hk]
        exact ⟨[(bid, src)], rfl, by simp⟩
      · rw [fillTier_cons_go src k bid rest acc hc hk]
        obtain ⟨tail, heq, hall⟩ := ih (acc ++ [(bid, src)])
        refine ⟨(bid, src) :: tail, ?_, ?_⟩
        · rw [heq, List.append_assoc, List.singleton_append]
        · intro p hp
          rcases List.mem_cons.mp hp with h | h
          · subst h; rfl
          · exact hall p h

theorem subset_fillTier (src : Source) (k : Nat) (l : List Nat)
    (acc : List (Nat × Source)) :
    acc.map Prod.fst ⊆ (fillTier src k l acc).map Prod.fst := by
  obtain ⟨tail, heq, -⟩ := fillTier_append src k l acc
  rw [heq, List.map_append]
  exact List.subset_append_left _ _

theorem length_fillTier_ge (src : Source) (k : Nat) (l : List Nat)
    (acc : List (Nat × Source)) :
    acc.length ≤ (fillTier src k l acc).length := by
  obtain ⟨tail, heq, -⟩ := fillTier_append src k l acc
  rw [heq, List.length_append]
  omega

theorem fillTier_nodup (src : Source) (k : Nat) (l : List Nat)
    (acc : List (Nat × Source)) (hacc : (acc.map Prod.fst).Nodup) :
    ((fillTier src k l acc).map Prod.fst).Nodup := by
  induction l generalizing acc with
  | nil => simpa [fillTier_nil] using hacc
  | cons bid rest ih =>
    by_cases hc : (acc.map Prod.fst).contains bid
    · rw [fillTier_cons_old src k bid rest acc hc]
      exact ih acc hacc
    · have hmem : bid ∉ acc.map Prod.fst := by simpa using hc
      have hacc2 : ((acc ++ [(bid, src)]).map Prod.fst).Nodup := by
        simp only [List.map_append, List.map_cons, List.map_nil]
        simp [List.nodup_append, hacc, hmem]
      by_cases hk : k ≤ acc.length + 1
      · rw [fillTier_cons_stop src k bid rest acc hc hk]
        exact hacc2
      · rw [fillTier_cons_go src k bid rest acc hc hk]
        exact ih (acc ++ [(bid, src)]) hacc2

theorem fillTier_length_le (src : Source) (k : Nat) (l : List Nat)
    (acc : List (Nat × Source)) (hacc : acc.length < k) :
    (fillTier src k l acc).length ≤ k := by
  induction l generalizing acc with
  | nil => rw [fillTier_nil]; omega
  | cons bid rest ih =>
    by_cases hc : (acc.map Prod.fst).contains bid
    · rw [fillTier_cons_old src k bid rest acc hc]
      exact ih acc hacc
    · by_cases hk : k ≤ acc.length + 1
      · rw [fillTier_cons_stop src k bid rest acc hc hk]
        simp only [List.length_append, List.length_cons, List.length_nil]
        omega
      · rw [fillTier_cons_go src k bid rest acc hc hk]
        refine ih (acc ++ [(bid, src)]) ?_
        simp only [List.length_append, List.length_cons, List.length_nil]
        omega

theorem fillTier_exhaust (src : Source) (k : Nat) (l : List Nat)
    (acc : List (Nat × Source)) (hlt : (fillTier src k l acc).length < k) :
    ∀ bid ∈ l, bid ∈ (fillTier src k l acc).map Prod.fst := by
  induction l generalizing acc with
  | nil => intro bid h; cases h
  | cons bid0 rest ih =>
    intro bid hbid
    by_cases hc : (acc.map Prod.fst).contains bid0
    · rw [fillTier_cons_old src k bid0 rest acc hc] at hlt ⊢
      rcases List.mem_cons.mp hbid with h | h
      · subst h
        exact subset_fillTier src k rest acc (by simpa using hc)
      · exact ih acc hlt bid h
    · by_cases hk : k ≤ acc.length + 1
      · rw [fillTier_cons_stop src k bid0 rest acc hc hk] at hlt
        simp only [List.length_append, List.length_cons, List.length_nil] at hlt
        omega
      · rw [fillTier_cons_go src k bid0 rest acc hc hk] at hlt ⊢
        rcases List.mem_cons.mp hbid with h | h
        · subst h
          refine subset_fillTier src k rest (acc ++ [(bid, src)]) ?_
          simp
        · exact ih (acc ++ [(bid0, src)]) hlt bid h

theorem fillTier_ids_subset (src : Source) (k : Nat) (l : List Nat)
    (acc : List (Nat × Source)) :
    (fillTier src k l acc).map Prod.fst ⊆ acc.map Prod.fst ++ l := by
  induction l generalizing acc with
  | nil => simp [fillTier_nil]
  | cons bid rest ih =>
    have hacc2 : (acc ++ [(bid, src)]).map Prod.fst ⊆ acc.map Prod.fst ++ bid :: rest := by
      intro a ha
      simp only [List.map_append, List.map_cons, List.map_nil, List.mem_append,
        List.mem_cons, List.mem_singleton, List.mem_nil_iff, or_false] at ha
      rcases ha with h | h
      · exact List.mem_append_left _ h
      · subst h
        exact List.mem_append_right _ (List.mem_cons_self _ _)
    by_cases hc : (acc.map Prod.fst).contains bid
    · rw [fillTier_cons_old src k bid rest acc hc]
      intro a ha
      rcases List.mem_append.mp (ih acc ha) with h | h
      · exact List.mem_append_left _ h
      · exact List.mem_append_right _ (List.mem_cons_of_mem _ h)
    · by_cases hk : k ≤ acc.length + 1
      · rw [fillTier_cons_stop src k bid rest acc hc hk]
        exact hacc2
      · rw [fillTier_cons_go src k bid rest acc hc hk]
        intro a ha
        rcases List.mem_append.mp (ih (acc ++ [(bid, src)]) ha) with h | h
        · exact hacc2 h
        · exact List.mem_append_right _ (List.mem_cons_of_mem _ h)

/-! ## Selection-phase (`fusePairs`) lemmas -/

theorem fusePairs_pos (qb : Book) (k : Nat)
    (hlt : (fillTier Source.description k qb.top_desc_neighbors_ids []).length < k) :
    fusePairs qb k = fillTier Source.popularShelves k qb.top_shelf_neighbors_ids
      (fillTier Source.description k qb.top_desc_neighbors_ids []) := by
  rw [fusePairs, if_pos hlt]

theorem fusePairs_neg (qb : Book) (k : Nat)
    (hlt : ¬ (fillTier Source.description k qb.top_desc_neighbors_ids []).length < k) :
    fusePairs qb k = fillTier Source.description k qb.top_desc_neighbors_ids [] := by
  rw [fusePairs, if_neg hlt]

theorem fusePairs_nodup (qb : Book) (k : Nat) :
    ((fusePairs qb k).map Prod.fst).Nodup := by
  have h1 := fillTier_nodup Source.description k qb.top_desc_neighbors_ids [] (by simp)
  by_cases hlt : (fillTier Source.description k qb.top_desc_neighbors_ids []).length < k
  · rw [fusePairs_pos qb k hlt]
    exact fillTier_nodup Source.popularShelves k qb.top_shelf_neighbors_ids _ h1
  · rw [fusePairs_neg qb k hlt]
    exact h1

theorem fusePairs_length_le (qb : Book) (k : Nat) (hk : 1 ≤ k) :
    (fusePairs qb k).length ≤ k := by
  by_cases hlt : (fillTier Source.description k qb.top_desc_neighbors_ids []).length < k
  · rw [fusePairs_pos qb k hlt]
    exact fillTier_length_le Source.popularShelves k qb.top_shelf_neighbors_ids _ hlt
  · rw [fusePairs_neg qb k hlt]
    exact fillTier_length_le Source.description k qb.top_desc_neighbors_ids []
      (by simp; omega)

theorem fusePairs_block (qb : Book) (k : Nat) :
    ∃ dp sp, fusePairs qb k = dp ++ sp ∧
      (∀ p ∈ dp, p.2 = Source.description) ∧
      (∀ p ∈ sp, p.2 = Source.popularShelves) := by
  obtain ⟨tail1, heq1, hall1⟩ :=
    fillTier_append Source.description k qb.top_desc_neighbors_ids []
  rw [List.nil_append] at heq1
  by_cases hlt : (fillTier Source.description k qb.top_desc_neighbors_ids []).length < k
  · obtain ⟨tail2, heq2, hall2⟩ :=
      fillTier_append Source.popularShelves k qb.top_shelf_neighbors_ids
        (fillTier Source.description k qb.top_desc_neighbors_ids [])
    refine ⟨tail1, tail2, ?_, hall1, hall2⟩
    rw [fusePairs_pos qb k hlt, heq2, heq1]
  · refine ⟨tail1, [], ?_, hall1, by simp⟩
    rw [fusePairs_neg qb k hlt, heq1, List.append_nil]

theorem fusePairs_ids_subset (qb : Book) (k : Nat) :
    (fusePairs qb k).map Prod.fst ⊆
      qb.top_desc_neighbors_ids ++ qb.top_shelf_neighbors_ids := by
  by_cases hlt : (fillTier Source.description k qb.top_desc_neighbors_ids []).length < k
  · rw [fusePairs_pos qb k hlt]
    intro a ha
    rcases List.mem_append.mp
        (fillTier_ids_subset Source.popularShelves k qb.top_shelf_neighbors_ids _ ha) with h | h
    · have := fillTier_ids_subset Source.description k qb.top_desc_neighbors_ids [] h
      simp only [List.map_nil, List.nil_append] at this
      exact List.mem_append_left _ this
    · exact List.mem_append_right _ h
  · rw [fusePairs_neg qb k hlt]
    intro a ha
    have := fillTier_ids_subset Source.description k qb.top_desc_neighbors_ids [] ha
    simp only [List.map_nil, List.nil_append] at this
    exact List.mem_append_left _ this

theorem fusePairs_length_eq (qb : Book) (k : Nat) (hk : 1 ≤ k)
    (hcount : k ≤ ((qb.top_desc_neighbors_ids ++ qb.top_shelf_neighbors_ids).dedup).length) :
    (fusePairs qb k).length = k := by
  rcases Nat.lt_or_ge (fusePairs qb k).length k with hlt | hge
  · exfalso
    -- Short output means both loops ran to exhaustion, so every neighbor id
    -- is among the output ids; but the output is shorter than the distinct
    -- neighbor count.
    have hall : ∀ bid ∈ qb.top_desc_neighbors_ids ++ qb.top_shelf_neighbors_ids,
        bid ∈ (fusePairs qb k).map Prod.fst := by
      by_cases ht1 : (fillTier Source.description k qb.top_desc_neighbors_ids []).length < k
      · rw [fusePairs_pos qb k ht1] at hlt ⊢
        intro bid hbid
        rcases List.mem_append.mp hbid with h | h
        · have hmem := fillTier_exhaust Source.description k qb.top_desc_neighbors_ids []
            (by
              have := length_fillTier_ge Source.popularShelves k
                qb.top_shelf_neighbors_ids
                (fillTier Source.description k qb.top_desc_neighbors_ids [])
              omega) bid h
          exact subset_fillTier Source.popularShelves k qb.top_shelf_neighbors_ids _ hmem
        · exact fillTier_exhaust Source.popularShelves k qb.top_shelf_neighbors_ids _ hlt bid h
      · rw [fusePairs_neg qb k ht1] at hlt
        omega
    have hsub : (qb.top_desc_neighbors_ids ++ qb.top_shelf_neighbors_ids).dedup ⊆
        (fusePairs qb k).map Prod.fst := by
      intro a ha
      exact hall a (List.dedup_subset _ ha)
    have hlen := length_le_of_nodup_subset (List.nodup_dedup _) hsub
    rw [List.length_map] at hlen
    omega
  · exact Nat.le_antisymm (fusePairs_length_le qb k hk) hge

theorem fusePairs_head (qb : Book) (k : Nat) (qid : Nat) (rest : List Nat)
    (hdesc : qb.top_desc_neighbors_ids = qid :: rest) :
    ∃ tail, fusePairs qb k = (qid, Source.description) :: tail := by
  have ht1 : ∃ tail1, fillTier Source.description k qb.top_desc_neighbors_ids [] =
      (qid, Source.description) :: tail1 := by
    rw [hdesc]
    by_cases hk1 : k ≤ List.length ([] : List (Nat × Source)) + 1
    · rw [fillTier_cons_stop Source.description k qid rest [] (by simp) hk1]
      exact ⟨[], rfl⟩
    · rw [fillTier_cons_go Source.description k qid rest [] (by simp) hk1]
      obtain ⟨tail, heq, -⟩ :=
        fillTier_append Source.description k rest [(qid, Source.description)]
      exact ⟨tail, by simpa using heq⟩
  obtain ⟨tail1, heq1⟩ := ht1
  by_cases hlt : (fillTier Source.description k qb.top_desc_neighbors_ids []).length < k
  · obtain ⟨tail2, heq2, -⟩ :=
      fillTier_append Source.popularShelves k qb.top_shelf_neighbors_ids
        (fillTier Source.description k qb.top_desc_neighbors_ids [])
    refine ⟨tail1 ++ tail2, ?_⟩
    rw [fusePairs_pos qb k hlt, heq2, heq1, List.cons_append]
  · refine ⟨tail1, ?_⟩
    rw [fusePairs_neg qb k hlt, heq1]

/-! ## Catalog lookup lemmas -/

theorem findBook_book_id {catalog : List Book} {bid : Nat} {b : Book}
    (h : findBook catalog bid = some b) : b.book_id = bid := by
  have := List.find?_some h
  simpa using this

theorem findBook_mem {catalog : List Book} {bid : Nat} {b : Book}
    (h : findBook catalog bid = some b) : b ∈ catalog :=
  List.mem_of_find?_eq_some h

theorem findBook_of_mem {catalog : List Book}
    (hcat : (catalog.map (fun b => b.book_id)).Nodup) {b : Book} (hb : b ∈ catalog) :
    findBook catalog b.book_id = some b := by
  induction catalog with
  | nil => cases hb
  | cons c rest ih =>
    simp only [List.map_cons, List.nodup_cons] at hcat
    rcases List.mem_cons.mp hb with h | h
    · subst h
      simp [findBook, List.find?]
    · have hne : c.book_id ≠ b.book_id := fun hcontra =>
        hcat.1 (hcontra ▸ List.mem_map_of_mem (fun x => x.book_id) h)
      have hfalse : (c.book_id == b.book_id) = false := beq_false_of_ne hne
      rw [findBook, List.find?_cons_of_neg _ (by simp [hfalse])]
      exact ih hcat.2 h

theorem book_id_inj {catalog : List Book}
    (hcat : (catalog.map (fun b => b.book_id)).Nodup) {a b : Book}
    (ha : a ∈ catalog) (hb : b ∈ catalog) (hid : a.book_id = b.book_id) : a = b := by
  have h1 := findBook_of_mem hcat ha
  have h2 := findBook_of_mem hcat hb
  rw [hid, h2] at h1
  exact (Option.some_injective _ h1).symm

/-! ## Hydration: the `isin` filter sorted by `_rank` equals the fused-id list
mapped through catalog lookup (unresolvable ids dropped). -/

theorem count_filterMap_findBook (catalog : List Book)
    (hcat : (catalog.map (fun b => b.book_id)).Nodup)
    (ids : List Nat) (hids : ids.Nodup) (b : Book) :
    (ids.filterMap (findBook catalog)).count b =
      if b.book_id ∈ ids ∧ b ∈ catalog then 1 else 0 := by
  induction ids with
  | nil => simp
  | cons bid rest ih =>
    simp only [List.nodup_cons] at hids
    have ihr := ih hids.2
    cases hfb : findBook catalog bid with
    | none =>
      rw [List.filterMap_cons_none hfb, ihr]
      by_cases hb : b.book_id = bid
      · have hnc : b ∉ catalog := by
          intro hmem
          rw [← hb, findBook_of_mem hcat hmem] at hfb
          cases hfb
        simp [hnc]
      · have : (b.book_id ∈ bid :: rest ∧ b ∈ catalog) ↔ (b.book_id ∈ rest ∧ b ∈ catalog) := by
          constructor
          · rintro ⟨h1, h2⟩
            rcases List.mem_cons.mp h1 with h | h
            · exact absurd h hb
            · exact ⟨h, h2⟩
          · rintro ⟨h1, h2⟩
            exact ⟨List.mem_cons_of_mem _ h1, h2⟩
        rw [if_congr this rfl rfl]
    | some bk =>
      have hbk : bk.book_id = bid := findBook_book_id hfb
      rw [List.filterMap_cons_some hfb, List.count_cons, ihr]
      by_cases hb : b.book_id = bid
      · have hnr : b.book_id ∉ rest := hb ▸ hids.1
        have hleft : ¬ (b.book_id ∈ rest ∧ b ∈ catalog) := fun hcontra => hnr hcontra.1
        rw [if_neg hleft]
        by_cases hbc : b ∈ catalog
        · have : bk = b := by
            have h2 := findBook_of_mem hcat hbc
            rw [hb, hfb] at h2
            exact Option.some_injective _ h2
          simp [this, hb, hbc]
        · have : bk ≠ b := fun hcontra => hbc (hcontra ▸ findBook_mem hfb)
          have hbeq : (bk == b) = false := beq_false_of_ne this
          simp [hbeq, hbc]
      · have : bk ≠ b := fun hcontra => hb (by rw [← hcontra, hbk])
        have hbeq : (bk == b) = false := beq_false_of_ne this
        have hmem : (b.book_id ∈ bid :: rest ∧ b ∈ catalog) ↔ (b.book_id ∈ rest ∧ b ∈ catalog) := by
          constructor
          · rintro ⟨h1, h2⟩
            rcases List.mem_cons.mp h1 with h | h
            · exact absurd h hb
            · exact ⟨h, h2⟩
          · rintro ⟨h1, h2⟩
            exact ⟨List.mem_cons_of_mem _ h1, h2⟩
        rw [if_congr hmem rfl rfl]
        simp [hbeq]

theorem count_filter_contains (catalog : List Book)
    (hcat : (catalog.map (fun b => b.book_id)).Nodup) (ids : List Nat) (b : Book) :
    (catalog.filter (fun c => ids.contains c.book_id)).count b =
      if b.book_id ∈ ids ∧ b ∈ catalog then 1 else 0 := by
  have hnodup : catalog.Nodup := List.Nodup.of_map _ hcat
  by_cases hmem : b.book_id ∈ ids
  · have hp : (fun c : Book => ids.contains c.book_id) b = true := by simpa using hmem
    have hcount : (catalog.filter (fun c => ids.contains c.book_id)).count b =
        catalog.count b := List.count_filter hp
    rw [hcount]
    by_cases hbc : b ∈ catalog
    · rw [if_pos ⟨hmem, hbc⟩]
      exact List.count_eq_one_of_mem hnodup hbc
    · rw [if_neg (fun hcontra => hbc hcontra.2)]
      exact List.count_eq_zero_of_not_mem hbc
  · have hout : b ∉ catalog.filter (fun c => ids.contains c.book_id) := by
      intro hcontra
      have := (List.mem_filter.mp hcontra).2
      exact hmem (by simpa using this)
    rw [List.count_eq_zero_of_not_mem hout,
      if_neg (fun hcontra => hmem hcontra.1)]

theorem filterMap_perm_filter (catalog : List Book)
    (hcat : (catalog.map (fun b => b.book_id)).Nodup)
    (ids : List Nat) (hids : ids.Nodup) :
    List.Perm (ids.filterMap (findBook catalog))
      (catalog.filter (fun c => ids.contains c.book_id)) := by
  rw [List.perm_iff_count]
  intro b
  rw [count_filterMap_findBook catalog hcat ids hids b,
    count_filter_contains catalog hcat ids b]

theorem pairwise_rank_lt (ids : List Nat) (hids : ids.Nodup) :
    ids.Pairwise (fun bid1 bid2 => rankKey ids bid1 < rankKey ids bid2) := by
  rw [List.pairwise_iff_getElem]
  intro i j hi hj hij
  have h1 : rankKey ids ids[i] = i := by
    have := rankKey_get ids hids i hi
    simpa using this
  have h2 : rankKey ids ids[j] = j := by
    have := rankKey_get ids hids j hj
    simpa using this
  omega

theorem target_pairwise (catalog : List Book) (ids : List Nat) (hids : ids.Nodup) :
    (ids.filterMap (findBook catalog)).Pairwise
      (fun a b => rankKey ids a.book_id < rankKey ids b.book_id) := by
  rw [List.pairwise_filterMap]
  refine (pairwise_rank_lt ids hids).imp ?_
  intro bid1 bid2 h b hb b2 hb2
  rw [Option.mem_def] at hb hb2
  rw [findBook_book_id hb, findBook_book_id hb2]
  exact h

theorem rank_mem_index (ids : List Nat) (hids : ids.Nodup) {bid : Nat} (h : bid ∈ ids) :
    ∃ j, ∃ hj : j < ids.length, ids.get ⟨j, hj⟩ = bid ∧ rankKey ids bid = j := by
  obtain ⟨⟨j, hj⟩, hget⟩ := List.mem_iff_get.mp h
  exact ⟨j, hj, hget, by rw [← hget]; exact rankKey_get ids hids j hj⟩

theorem hydrate_eq (catalog : List Book) (ids : List Nat)
    (hcat : (catalog.map (fun b => b.book_id)).Nodup) (hids : ids.Nodup) :
    (catalog.filter (fun c => ids.contains c.book_id)).insertionSort (byRank ids) =
      ids.filterMap (findBook catalog) := by
  have hmatched_nodup : (catalog.filter (fun c => ids.contains c.book_id)).Nodup :=
    List.Nodup.filter _ (List.Nodup.of_map _ hcat)
  haveI : IsAntisymm Book (fun a b => rankKey ids a.book_id < rankKey ids b.book_id) :=
    ⟨fun a b h1 h2 => absurd (lt_trans h1 h2) (lt_irrefl _)⟩
  refine List.eq_of_perm_of_sorted
    (r := fun a b => rankKey ids a.book_id < rankKey ids b.book_id) ?_ ?_ ?_
  · exact (List.perm_insertionSort _ _).trans (filterMap_perm_filter catalog hcat ids hids).symm
  · -- the sorted filter is strictly rank-increasing: `byRank`-sorted plus
    -- distinct elements with injective ranks
    haveI : IsTotal Book (byRank ids) := ⟨fun a b => Nat.le_total _ _⟩
    haveI : IsTrans Book (byRank ids) := ⟨fun a b c h1 h2 => Nat.le_trans h1 h2⟩
    have hsorted := List.sorted_insertionSort (byRank ids)
      (catalog.filter (fun c => ids.contains c.book_id))
    have hnodup : (List.insertionSort (byRank ids)
        (catalog.filter (fun c => ids.contains c.book_id))).Nodup :=
      ((List.perm_insertionSort _ _).nodup_iff).mpr hmatched_nodup
    have hcomb := List.Pairwise.and hsorted hnodup
    refine hcomb.imp_of_mem ?_
    intro a b ha hb hab
    have hamem : a ∈ catalog.filter (fun c => ids.contains c.book_id) :=
      (List.perm_insertionSort _ _).subset ha
    have hbmem : b ∈ catalog.filter (fun c => ids.contains c.book_id) :=
      (List.perm_insertionSort _ _).subset hb
    have haid : a.book_id ∈ ids := by simpa using (List.mem_filter.mp hamem).2
    have hbid : b.book_id ∈ ids := by simpa using (List.mem_filter.mp hbmem).2
    rcases Nat.lt_or_ge (rankKey ids a.book_id) (rankKey ids b.book_id) with h | h
    · exact h
    · exfalso
      have heq : rankKey ids a.book_id = rankKey ids b.book_id :=
        Nat.le_antisymm hab.1 h
      obtain ⟨j1, hj1, hget1, hr1⟩ := rank_mem_index ids hids haid
      obtain ⟨j2, hj2, hget2, hr2⟩ := rank_mem_index ids hids hbid
      have : j1 = j2 := by omega
      subst this
      have hideq : a.book_id = b.book_id := by rw [← hget1, ← hget2]
      exact hab.2 (book_id_inj hcat (List.mem_filter.mp hamem).1
        (List.mem_filter.mp hbmem).1 hideq)
  · exact target_pairwise catalog ids hids

/-- Pushing a function of the id through the hydrated row list: the hydrated
rows, viewed through any function of their id, are the fused ids filtered to
the resolvable ones. -/
theorem filterMap_findBook_map (catalog : List Book) (ids : List Nat) (g : Nat → γ) :
    (ids.filterMap (findBook catalog)).map (fun b => g b.book_id) =
      (ids.filter (fun bid => (findBook catalog bid).isSome)).map g := by
  induction ids with
  | nil => rfl
  | cons bid rest ih =>
    cases hfb : findBook catalog bid with
    | none =>
      rw [List.filterMap_cons_none hfb, List.filter_cons, if_neg (by simp [hfb])]
      exact ih
    | some bk =>
      rw [List.filterMap_cons_some hfb, List.filter_cons, if_pos (by simp [hfb])]
      simp only [List.map_cons, findBook_book_id hfb]
      rw [ih]

/-! ## Fusion master lemmas -/

theorem fuse_of_none (catalog : List Book) (qid k : Nat)
    (h : findBook catalog qid = none) :
    fuse_neighbors_streamlit catalog qid k = ⟨true, []⟩ := by
  rw [fuse_neighbors_streamlit, h]

theorem fuse_rows_eq (catalog : List Book) (qid k : Nat) (qb : Book)
    (hcat : (catalog.map (fun b => b.book_id)).Nodup)
    (hfound : findBook catalog qid = some qb) :
    fuse_neighbors_streamlit catalog qid k =
      ⟨false, (((fusePairs qb k).map Prod.fst).filterMap (findBook catalog)).map
        (fun b => ⟨b.title, b.average_rating, b.ratings_count, b.book_id,
          dictOf (fusePairs qb k) b.book_id⟩)⟩ := by
  rw [fuse_neighbors_streamlit, hfound]
  by_cases hemp : ((fusePairs qb k).map Prod.fst).isEmpty
  · have hnil : (fusePairs qb k).map Prod.fst = [] := by
      simpa using hemp
    simp only [hnil, List.isEmpty_nil, if_true, List.filterMap_nil, List.map_nil]
  · simp only [hemp, Bool.false_eq_true, if_false]
    rw [hydrate_eq catalog ((fusePairs qb k).map Prod.fst) hcat (fusePairs_nodup qb k)]

theorem fuse_rows_book_ids (catalog : List Book) (qid k : Nat) (qb : Book)
    (hcat : (catalog.map (fun b => b.book_id)).Nodup)
    (hfound : findBook catalog qid = some qb) :
    (fuse_neighbors_streamlit catalog qid k).rows.map (fun r => r.book_id) =
      ((fusePairs qb k).map Prod.fst).filter
        (fun bid => (findBook catalog bid).isSome) := by
  rw [fuse_rows_eq catalog qid k qb hcat hfound]
  have h := filterMap_findBook_map catalog ((fusePairs qb k).map Prod.fst)
    (fun bid : Nat => bid)
  rw [List.map_id'] at h
  rw [List.map_map]
  exact h

theorem fuse_rows_sources (catalog : List Book) (qid k : Nat) (qb : Book)
    (hcat : (catalog.map (fun b => b.book_id)).Nodup)
    (hfound : findBook catalog qid = some qb) :
    (fuse_neighbors_streamlit catalog qid k).rows.map (fun r => r.source) =
      (((fusePairs qb k).map Prod.fst).filter
        (fun bid => (findBook catalog bid).isSome)).map
          (fun bid => dictOf (fusePairs qb k) bid) := by
  rw [fuse_rows_eq catalog qid k qb hcat hfound]
  have h := filterMap_findBook_map catalog ((fusePairs qb k).map Prod.fst)
    (fun bid => dictOf (fusePairs qb k) bid)
  rw [List.map_map]
  exact h

/-! ## Title Resolver (`search_books_streamlit`) -/

/-- One row of a search result: the tuple
`(book_id, title, ratings_count, average_rating)` fetched by the SQL queries. -/
structure SearchCandidate where
  book_id : Nat
  title : String
  ratings_count : Nat
  average_rating : Rat
deriving DecidableEq

/-- The tuple built from a catalog row by both SQL `SELECT`s (and copied
verbatim by the `formatted_results` loop). -/
def toCandidate (b : Book) : SearchCandidate :=
  ⟨b.book_id, b.title, b.ratings_count, b.average_rating⟩

/-- `ORDER BY ratings_count DESC`: `a` may come before `b` when `b`'s count is
at most `a`'s. -/
def byRatingsDesc (a b : Book) : Prop := b.ratings_count ≤ a.ratings_count

instance : DecidableRel byRatingsDesc := fun a b =>
  inferInstanceAs (Decidable (b.ratings_count ≤ a.ratings_count))

instance : IsTotal Book byRatingsDesc := ⟨fun _ _ => Nat.le_total _ _⟩

instance : IsTrans Book byRatingsDesc := ⟨fun _ _ _ h1 h2 => Nat.le_trans h2 h1⟩

/-- `fts5_query_str = f-string wrapping the query in one pair of double
quotes` (line 62 of the source) — note: without doubling any quote characters
inside the query. -/
def mkFts5QueryStr (q : String) : String := "\"" ++ q ++ "\""

/-- Similarity order on candidate title strings for a fixed query:
`a` may come before `b` when `b`'s score is at most `a`'s. -/
def byScoreDesc (score : String → String → Nat) (q : String) (a b : String) : Prop :=
  score q b ≤ score q a

instance (score : String → String → Nat) (q : String) :
    DecidableRel (byScoreDesc score q) := fun a b =>
  inferInstanceAs (Decidable (score q b ≤ score q a))

instance (score : String → String → Nat) (q : String) :
    IsTotal String (byScoreDesc score q) := ⟨fun _ _ => Nat.le_total _ _⟩

instance (score : String → String → Nat) (q : String) :
    IsTrans String (byScoreDesc score q) := ⟨fun _ _ _ h1 h2 => Nat.le_trans h2 h1⟩

/-- Model of `rapidfuzz.process.extract(query, choices, limit)` restricted to
what the caller consumes (`match[0]`, the matched strings): the choices
ranked by similarity score descending, truncated to `limit`.  The scorer
itself is external and abstract (`score`); with its default `score_cutoff` of
`None`, `process.extract` applies no minimum-score threshold. -/
def rapidfuzzExtract (score : String → String → Nat) (q : String)
    (choices : List String) (limit : Nat) : List String :=
  (choices.insertionSort (byScoreDesc score q)).take limit

/-- `search_books_streamlit` (lines 57–100).  `ftsMatch s t` abstracts the
external FTS5 full-text index: whether a title `t` matches the query string
`s` sent to `MATCH` (the SQL execution itself is assumed to succeed; the
syntactic well-formedness of `s` is treated separately, see `fts5ScanOk`).
Phase 1 runs the phrase query ordered by `ratings_count` descending limited
to `top_n`; only if that result list is empty does the fuzzy fallback run:
fetch all titles, take the `top_n` most similar, re-fetch rows whose title is
among them, order by `ratings_count` descending, limit `top_n`. -/
def search_books_streamlit (ftsMatch : String → String → Bool)
    (score : String → String → Nat) (catalog : List Book)
    (title_query_str : String) (top_n : Nat) : List SearchCandidate :=
  let fts5_query_str := mkFts5QueryStr title_query_str
  let fts_results :=
    (((catalog.filter (fun b => ftsMatch fts5_query_str b.title)).insertionSort
        byRatingsDesc).take top_n).map toCandidate
  if fts_results.isEmpty then
    let all_titles := catalog.map (fun b => b.title)
    let matched_titles := rapidfuzzExtract score title_query_str all_titles top_n
    (((catalog.filter (fun b => matched_titles.contains b.title)).insertionSort
        byRatingsDesc).take top_n).map toCandidate
  else fts_results

/-- The Title Resolver algorithm exactly as §4.1 of the spec words it
(for the refinement claim): (1) run the whole query as a single phrase
against the title index, order matches by `ratingsCount` descending, truncate
to `k`; (2) only if phrase search yields **zero matches**, score every
catalog title against the query, take the top-`k` titles by similarity,
re-fetch their full records, re-sort that subset by `ratingsCount`
descending, truncate to `k`. -/
def resolveSpec (ftsMatch : String → String → Bool)
    (score : String → String → Nat) (catalog : List Book)
    (query : String) (k : Nat) : List SearchCandidate :=
  let phraseMatches := catalog.filter (fun b => ftsMatch (mkFts5QueryStr query) b.title)
  if phraseMatches.isEmpty then
    let topTitles := rapidfuzzExtract score query (catalog.map (fun b => b.title)) k
    let refetched := catalog.filter (fun b => topTitles.contains b.title)
    ((refetched.insertionSort byRatingsDesc).take k).map toCandidate
  else
    ((phraseMatches.insertionSort byRatingsDesc).take k).map toCandidate

/-! ## FTS5 query-string syntax model

Modelled from the spec: the phrase-search syntax of the external full-text
index (SQLite FTS5) is not part of `src/`; the spec requires that a query
containing characters with special meaning in that syntax "must be
escaped/quoted so the entire query is matched literally, not interpreted as a
search expression".  In FTS5 syntax a string is enclosed in double quotes and
a literal double quote inside a string is written as two consecutive double
quotes; a query string that ends while still inside an unterminated string is
rejected by the engine as malformed ("fts5: syntax error"). -/

/-- Scanner over the characters of an FTS5 query string.  The `Bool` state
records whether the scanner is inside a double-quoted string.  Returns
`true` iff every quoted string is terminated by the end of the input. -/
def fts5ScanAux : Bool → List Char → Bool
  | inside, [] => !inside
  | false, '"' :: rest => fts5ScanAux true rest
  | false, _ :: rest => fts5ScanAux false rest
  | true, '"' :: '"' :: rest => fts5ScanAux true rest
  | true, '"' :: rest => fts5ScanAux false rest
  | true, _ :: rest => fts5ScanAux true rest

/-- Whether an FTS5 query string is accepted by the string scanner (a
necessary condition for the engine not to report a syntax error). -/
def fts5ScanOk (s : String) : Bool := fts5ScanAux false s.data

/-- Parse a character list that consists of exactly one double-quoted FTS5
string spanning the whole input; returns the literal phrase content with
doubled quotes decoded, `none` if the input is not one single phrase. -/
def fts5PhraseBody : List Char → Option (List Char)
  | [] => none
  | ['"'] => some []
  | '"' :: '"' :: rest => (fts5PhraseBody rest).map (fun l => '"' :: l)
  | '"' :: _ :: _ => none
  | c :: rest => (fts5PhraseBody rest).map (fun l => c :: l)

/-- Parse an entire FTS5 query string as a single literal phrase. -/
def fts5SinglePhrase (s : String) : Option (List Char) :=
  match s.data with
  | '"' :: rest => fts5PhraseBody rest
  | _ => none

/-! ## Search lemmas -/

theorem search_eq_fallback (f : String → String → Bool) (s : String → String → Nat)
    (catalog : List Book) (q : String) (k : Nat)
    (h : catalog.filter (fun b => f (mkFts5QueryStr q) b.title) = []) :
    search_books_streamlit f s catalog q k =
      (((catalog.filter (fun b =>
          (rapidfuzzExtract s q (catalog.map (fun b2 => b2.title)) k).contains
            b.title)).insertionSort byRatingsDesc).take k).map toCandidate := by
  simp only [search_books_streamlit, h]
  simp

theorem search_eq_phrase (f : String → String → Bool) (s : String → String → Nat)
    (catalog : List Book) (q : String) (k : Nat)
    (h : catalog.filter (fun b => f (mkFts5QueryStr q) b.title) ≠ []) (hk : 1 ≤ k) :
    search_books_streamlit f s catalog q k =
      (((catalog.filter (fun b => f (mkFts5QueryStr q) b.title)).insertionSort
          byRatingsDesc).take k).map toCandidate := by
  have hlen : ((catalog.filter
      (fun b => f (mkFts5QueryStr q) b.title)).insertionSort byRatingsDesc) ≠ [] := by
    intro hcontra
    apply h
    have := List.length_insertionSort byRatingsDesc
      (catalog.filter (fun b => f (mkFts5QueryStr q) b.title))
    rw [hcontra] at this
    exact List.length_eq_zero.mp this.symm
  have hne : ((((catalog.filter (fun b => f (mkFts5QueryStr q) b.title)).insertionSort
      byRatingsDesc).take k).map toCandidate) ≠ [] := by
    rw [Ne, List.map_eq_nil_iff, List.take_eq_nil_iff]
    push_neg
    exact ⟨by omega, hlen⟩
  simp only [search_books_streamlit]
  rw [if_neg (by simpa using hne)]

/-! ## Concrete catalogs for witnesses and counterexamples -/

def demoA1 : Book := ⟨1, "alpha", 4, 100, [2], [3]⟩

def demoA2 : Book := ⟨2, "beta", 3, 80, [], []⟩

def demoA3 : Book := ⟨3, "gamma", 5, 60, [], []⟩

/-- A small healthy catalog: book 1 has description neighbor 2 and shelf
neighbor 3. -/
def demoCatalogA : List Book := [demoA1, demoA2, demoA3]

/-- A catalog whose single book has an unresolvable description neighbor. -/
def demoCatalogB : List Book := [⟨1, "alpha", 4, 100, [99], []⟩]

/-- Book 1's description list holds an unresolvable id 99 before a good
id 2. -/
def demoCatalogD : List Book := [⟨1, "alpha", 4, 100, [99, 2], []⟩, ⟨2, "beta", 3, 80, [], []⟩]

/-- Book 1's own id occurs in its description list, but only in second
position. -/
def demoCatalogE : List Book := [⟨1, "alpha", 4, 100, [2, 1], []⟩, ⟨2, "beta", 3, 80, [], []⟩]

/-- Book 1's own id is the first entry of its own description list. -/
def demoCatalogF : List Book := [⟨1, "alpha", 4, 100, [1, 2], []⟩, ⟨2, "beta", 3, 80, [], []⟩]

/-! ## Claim theorems: Neighbor Fusion Engine -/

/-- C1 (counterexample): with `k = 0` the claim "`fuse` returns at most `k`
recommendations" fails: book id 1 is present in `demoCatalogA`, yet
`fuse(1, 0)` returns one row, because the loop tests the length bound only
after appending. -/
theorem fuse_k_zero_counterexample :
    findBook demoCatalogA 1 = some demoA1 ∧
    ¬ ((fuse_neighbors_streamlit demoCatalogA 1 0).rows.length ≤ 0) := by
  constructor
  · rfl
  · decide

/-- C1 (amended): for every book id present in a catalog with unique ids and
every `k ≥ 1`, `fuse` returns at most `k` recommendations (for `k = 0` it can
return one), and for every `k ≥ 0` no book id occurs twice in the output. -/
theorem fuse_at_most_k_and_nodup (catalog : List Book) (qid k : Nat) (qb : Book)
    (hcat : (catalog.map (fun b => b.book_id)).Nodup)
    (hfound : findBook catalog qid = some qb) :
    (1 ≤ k → (fuse_neighbors_streamlit catalog qid k).rows.length ≤ k) ∧
    ((fuse_neighbors_streamlit catalog qid k).rows.map (fun r => r.book_id)).Nodup := by
  have hids := fuse_rows_book_ids catalog qid k qb hcat hfound
  constructor
  · intro hk
    have hlen : (fuse_neighbors_streamlit catalog qid k).rows.length =
        ((fuse_neighbors_streamlit catalog qid k).rows.map (fun r => r.book_id)).length :=
      (List.length_map _ _).symm
    rw [hlen, hids]
    calc (((fusePairs qb k).map Prod.fst).filter
          (fun bid => (findBook catalog bid).isSome)).length
        ≤ ((fusePairs qb k).map Prod.fst).length := List.length_filter_le _ _
      _ = (fusePairs qb k).length := List.length_map _ _
      _ ≤ k := fusePairs_length_le qb k hk
  · rw [hids]
    exact List.Nodup.filter _ (fusePairs_nodup qb k)

/-- C1 (witness): the amended claim evaluated on the concrete catalog
`demoCatalogA` at `k = 2`. -/
theorem fuse_at_most_k_and_nodup_witness :
    (demoCatalogA.map (fun b => b.book_id)).Nodup ∧
    findBook demoCatalogA 1 = some demoA1 ∧
    ((1 ≤ 2 → (fuse_neighbors_streamlit demoCatalogA 1 2).rows.length ≤ 2) ∧
      ((fuse_neighbors_streamlit demoCatalogA 1 2).rows.map (fun r => r.book_id)).Nodup) :=
  ⟨by decide, by rfl,
    fuse_at_most_k_and_nodup demoCatalogA 1 2 demoA1 (by decide) (by rfl)⟩

/-- C2 (counterexample): the book in `demoCatalogB` has one distinct neighbor
id across both tiers (`≥ k = 1`), but that id resolves to no catalog record,
so hydration drops it and `fuse(1, 1)` returns zero rows, not exactly one. -/
theorem fuse_exactly_k_counterexample :
    findBook demoCatalogB 1 = some ⟨1, "alpha", 4, 100, [99], []⟩ ∧
    1 ≤ ((([99] : List Nat) ++ ([] : List Nat)).dedup).length ∧
    ¬ ((fuse_neighbors_streamlit demoCatalogB 1 1).rows.length = 1) := by
  refine ⟨by rfl, by decide, by decide⟩

/-- C2 (amended): if a catalog book's distinct neighbor-id count across both
tiers is at least `k` (with `k ≥ 1`, unique catalog ids) **and every neighbor
id resolves to a catalog record**, then `fuse` returns exactly `k`
recommendations.  (Without the resolvability condition hydration silently
drops unresolvable ids, per the spec's own `MalformedNeighborData` policy,
and fewer than `k` rows come back.) -/
theorem fuse_exactly_k (catalog : List Book) (qid k : Nat) (qb : Book)
    (hcat : (catalog.map (fun b => b.book_id)).Nodup)
    (hfound : findBook catalog qid = some qb) (hk : 1 ≤ k)
    (hcount : k ≤ ((qb.top_desc_neighbors_ids ++ qb.top_shelf_neighbors_ids).dedup).length)
    (hres : ∀ bid ∈ qb.top_desc_neighbors_ids ++ qb.top_shelf_neighbors_ids,
      (findBook catalog bid).isSome) :
    (fuse_neighbors_streamlit catalog qid k).rows.length = k := by
  have hids := fuse_rows_book_ids catalog qid k qb hcat hfound
  have hall : ∀ bid ∈ (fusePairs qb k).map Prod.fst,
      (findBook catalog bid).isSome = true := by
    intro bid hbid
    exact hres bid (fusePairs_ids_subset qb k hbid)
  have hfilter : ((fusePairs qb k).map Prod.fst).filter
      (fun bid => (findBook catalog bid).isSome) = (fusePairs qb k).map Prod.fst :=
    List.filter_eq_self.mpr hall
  have hlen : (fuse_neighbors_streamlit catalog qid k).rows.length =
      ((fuse_neighbors_streamlit catalog qid k).rows.map (fun r => r.book_id)).length :=
    (List.length_map _ _).symm
  rw [hlen, hids, hfilter, List.length_map]
  exact fusePairs_length_eq qb k hk hcount

/-- C2 (witness): on `demoCatalogA`, book 1 has two distinct resolvable
neighbors and `fuse(1, 2)` returns exactly two rows. -/
theorem fuse_exactly_k_witness :
    (demoCatalogA.map (fun b => b.book_id)).Nodup ∧
    findBook demoCatalogA 1 = some demoA1 ∧
    2 ≤ ((demoA1.top_desc_neighbors_ids ++ demoA1.top_shelf_neighbors_ids).dedup).length ∧
    (fuse_neighbors_streamlit demoCatalogA 1 2).rows.length = 2 :=
  ⟨by decide, by rfl, by decide,
    fuse_exactly_k demoCatalogA 1 2 demoA1 (by decide) (by rfl) (by decide)
      (by decide) (by decide)⟩

/-- C3: the hydrated output lists exactly the ids appended by the two
tier-fill loops, in fill order (restricted to ids that resolve, which the
hydration join keeps); consequently its provenance column is a block of
`Description` tags followed by a block of `PopularShelves` tags, so every
description-sourced row precedes every shelf-sourced row. -/
theorem fuse_preserves_fill_order (catalog : List Book) (qid k : Nat) (qb : Book)
    (hcat : (catalog.map (fun b => b.book_id)).Nodup)
    (hfound : findBook catalog qid = some qb) :
    (fuse_neighbors_streamlit catalog qid k).rows.map (fun r => r.book_id) =
      ((fusePairs qb k).map Prod.fst).filter
        (fun bid => (findBook catalog bid).isSome) ∧
    ∃ d s2, (fuse_neighbors_streamlit catalog qid k).rows.map (fun r => r.source) =
      List.replicate d (some Source.description) ++
        List.replicate s2 (some Source.popularShelves) := by
  refine ⟨fuse_rows_book_ids catalog qid k qb hcat hfound, ?_⟩
  rw [fuse_rows_sources catalog qid k qb hcat hfound]
  obtain ⟨dp, sp, hsplit, hdall, hsall⟩ := fusePairs_block qb k
  have hkeys : ((fusePairs qb k).map Prod.fst).Nodup := fusePairs_nodup qb k
  have hlookup : ∀ part : List (Nat × Source), ∀ v : Source,
      (∀ p ∈ part, p.2 = v) → (∀ p ∈ part, p ∈ fusePairs qb k) →
      ∀ x ∈ ((part.map Prod.fst).filter
        (fun bid => (findBook catalog bid).isSome)).map
          (fun bid => dictOf (fusePairs qb k) bid), x = some v := by
    intro part v hv hin x hx
    obtain ⟨bid, hbid, hxeq⟩ := List.mem_map.mp hx
    obtain ⟨p0, hp0, hp0id⟩ := List.mem_map.mp (List.mem_of_mem_filter hbid)
    have hp0v : p0.2 = v := hv p0 hp0
    have hp0mem : p0 ∈ fusePairs qb k := hin p0 hp0
    have : dictOf (fusePairs qb k) bid = some v := by
      have hpair : (bid, v) ∈ fusePairs qb k := by
        have : p0 = (bid, v) := by
          cases p0
          simp only at hp0id hp0v
          rw [hp0id, hp0v]
        rw [← this]
        exact hp0mem
      exact dictOf_of_mem hkeys hpair
    rw [← hxeq, this]
  have hgoal : (fusePairs qb k).map Prod.fst = dp.map Prod.fst ++ sp.map Prod.fst := by
    rw [hsplit, List.map_append]
  rw [hgoal, List.filter_append, List.map_append]
  refine ⟨((dp.map Prod.fst).filter (fun bid => (findBook catalog bid).isSome)).length,
    ((sp.map Prod.fst).filter (fun bid => (findBook catalog bid).isSome)).length, ?_⟩
  have hd : ((dp.map Prod.fst).filter (fun bid => (findBook catalog bid).isSome)).map
      (fun bid => dictOf (fusePairs qb k) bid) =
      List.replicate ((dp.map Prod.fst).filter
        (fun bid => (findBook catalog bid).isSome)).length (some Source.description) := by
    rw [List.eq_replicate_iff]
    refine ⟨List.length_map _ _, ?_⟩
    refine hlookup dp Source.description hdall ?_
    intro p hp
    rw [hsplit]
    exact List.mem_append_left _ hp
  have hs : ((sp.map Prod.fst).filter (fun bid => (findBook catalog bid).isSome)).map
      (fun bid => dictOf (fusePairs qb k) bid) =
      List.replicate ((sp.map Prod.fst).filter
        (fun bid => (findBook catalog bid).isSome)).length (some Source.popularShelves) := by
    rw [List.eq_replicate_iff]
    refine ⟨List.length_map _ _, ?_⟩
    refine hlookup sp Source.popularShelves hsall ?_
    intro p hp
    rw [hsplit]
    exact List.mem_append_right _ hp
  rw [hd, hs]

/-- C3 (witness): on `demoCatalogA` with `k = 3`, book 1's fused output is
`[2 (Description), 3 (PopularShelves)]`, in fill order. -/
theorem fuse_preserves_fill_order_witness :
    (demoCatalogA.map (fun b => b.book_id)).Nodup ∧
    findBook demoCatalogA 1 = some demoA1 ∧
    ((fuse_neighbors_streamlit demoCatalogA 1 3).rows.map (fun r => r.book_id) =
      ((fusePairs demoA1 3).map Prod.fst).filter
        (fun bid => (findBook demoCatalogA bid).isSome) ∧
    ∃ d s2, (fuse_neighbors_streamlit demoCatalogA 1 3).rows.map (fun r => r.source) =
      List.replicate d (some Source.description) ++
        List.replicate s2 (some Source.popularShelves)) :=
  ⟨by decide, by rfl,
    fuse_preserves_fill_order demoCatalogA 1 3 demoA1 (by decide) (by rfl)⟩

/-- C4: a fusion request for an id absent from the catalog returns the empty
row list together with the "book not found" warning signal (distinct from the
silent empty result of a known book without neighbors).  The embedded
function is total and leaves the catalog — an immutable argument — untouched,
mirroring the source, which raises nothing on this path and never writes to
`books_df`. -/
theorem fuse_unknown_id (catalog : List Book) (qid k : Nat)
    (h : findBook catalog qid = none) :
    (fuse_neighbors_streamlit catalog qid k).rows = [] ∧
    (fuse_neighbors_streamlit catalog qid k).bookNotFound = true := by
  rw [fuse_of_none catalog qid k h]
  exact ⟨rfl, rfl⟩

/-- C4 (witness): id 99 is not in `demoCatalogA`. -/
theorem fuse_unknown_id_witness :
    findBook demoCatalogA 99 = none ∧
    ((fuse_neighbors_streamlit demoCatalogA 99 5).rows = [] ∧
      (fuse_neighbors_streamlit demoCatalogA 99 5).bookNotFound = true) :=
  ⟨by rfl, fuse_unknown_id demoCatalogA 99 5 (by rfl)⟩

/-- C5: ids selected by the tier-fill loops that resolve to no catalog record
are silently omitted by the hydration join (`isin` keeps only catalog rows),
while the remaining recommendations are still returned in fill order and the
request does not fail: the result is the fused-id list filtered to resolvable
ids, with no "not found" signal. -/
theorem fuse_skips_unresolvable (catalog : List Book) (qid k : Nat) (qb : Book)
    (hcat : (catalog.map (fun b => b.book_id)).Nodup)
    (hfound : findBook catalog qid = some qb) :
    (fuse_neighbors_streamlit catalog qid k).bookNotFound = false ∧
    (fuse_neighbors_streamlit catalog qid k).rows.map (fun r => r.book_id) =
      ((fusePairs qb k).map Prod.fst).filter
        (fun bid => (findBook catalog bid).isSome) ∧
    ∀ bid ∈ (fusePairs qb k).map Prod.fst, findBook catalog bid = none →
      bid ∉ (fuse_neighbors_streamlit catalog qid k).rows.map (fun r => r.book_id) := by
  have hids := fuse_rows_book_ids catalog qid k qb hcat hfound
  refine ⟨?_, hids, ?_⟩
  · rw [fuse_rows_eq catalog qid k qb hcat hfound]
  · intro bid _hbid hnone hcontra
    rw [hids] at hcontra
    have := List.of_mem_filter hcontra
    rw [hnone] at this
    cases this

/-- C5 (witness): in `demoCatalogD` the selection phase picks `[99, 2]`; the
unresolvable id 99 is dropped and the request still returns row 2. -/
theorem fuse_skips_unresolvable_witness :
    (demoCatalogD.map (fun b => b.book_id)).Nodup ∧
    findBook demoCatalogD 1 = some ⟨1, "alpha", 4, 100, [99, 2], []⟩ ∧
    ((fuse_neighbors_streamlit demoCatalogD 1 5).bookNotFound = false ∧
      (fuse_neighbors_streamlit demoCatalogD 1 5).rows.map (fun r => r.book_id) =
        ((fusePairs ⟨1, "alpha", 4, 100, [99, 2], []⟩ 5).map Prod.fst).filter
          (fun bid => (findBook demoCatalogD bid).isSome) ∧
      ∀ bid ∈ (fusePairs (⟨1, "alpha", 4, 100, [99, 2], []⟩ : Book) 5).map Prod.fst,
        findBook demoCatalogD bid = none →
        bid ∉ (fuse_neighbors_streamlit demoCatalogD 1 5).rows.map (fun r => r.book_id)) :=
  ⟨by decide, by rfl,
    fuse_skips_unresolvable demoCatalogD 1 5 ⟨1, "alpha", 4, 100, [99, 2], []⟩
      (by decide) (by rfl)⟩

/-- C9 (counterexample): book 1 of `demoCatalogE` has its own id in its
description-neighbor list (in second position), yet `fuse(1, 1)` does **not**
emit id 1 — the `k` bound cuts the loop before reaching it — so "contains the
book's own id implies the book is emitted" is false as stated for `k ≥ 1`. -/
theorem fuse_self_id_counterexample :
    findBook demoCatalogE 1 = some ⟨1, "alpha", 4, 100, [2, 1], []⟩ ∧
    1 ∈ ([2, 1] : List Nat) ∧
    1 ∉ (fuse_neighbors_streamlit demoCatalogE 1 1).rows.map (fun r => r.book_id) := by
  refine ⟨by rfl, by decide, by decide⟩

/-- C9 (amended): the fusion engine indeed never validates neighbor ids
against the query book's own id: whenever the book's own id is the **first**
entry of its description list and `k ≥ 1`, `fuse` emits the query book itself
as its top recommendation.  (When the own id sits deeper in the list it is
emitted exactly when the fill loop reaches it before the `k` cut, as the
counterexample shows.) -/
theorem fuse_emits_self_id (catalog : List Book) (qid k : Nat) (qb : Book)
    (rest : List Nat) (hcat : (catalog.map (fun b => b.book_id)).Nodup)
    (hfound : findBook catalog qid = some qb)
    (hdesc : qb.top_desc_neighbors_ids = qid :: rest) (_hk : 1 ≤ k) :
    ∃ r tail, (fuse_neighbors_streamlit catalog qid k).rows = r :: tail ∧
      r.book_id = qid := by
  obtain ⟨ptail, hpairs⟩ := fusePairs_head qb k qid rest hdesc
  have hids := fuse_rows_book_ids catalog qid k qb hcat hfound
  rw [hpairs] at hids
  have hres : (findBook catalog qid).isSome = true := by rw [hfound]; rfl
  rw [List.map_cons, List.filter_cons, if_pos (by simpa using hres)] at hids
  cases hrows : (fuse_neighbors_streamlit catalog qid k).rows with
  | nil => rw [hrows] at hids; cases hids
  | cons r tail =>
    rw [hrows, List.map_cons] at hids
    exact ⟨r, tail, rfl, (List.cons_eq_cons.mp hids).1⟩

/-- C9 (witness): in `demoCatalogF` book 1's description list starts with its
own id, and `fuse(1, 2)` returns book 1 itself as the top recommendation. -/
theorem fuse_emits_self_id_witness :
    (demoCatalogF.map (fun b => b.book_id)).Nodup ∧
    findBook demoCatalogF 1 = some ⟨1, "alpha", 4, 100, [1, 2], []⟩ ∧
    (∃ r tail, (fuse_neighbors_streamlit demoCatalogF 1 2).rows = r :: tail ∧
      r.book_id = 1) :=
  ⟨by decide, by rfl,
    fuse_emits_self_id demoCatalogF 1 2 ⟨1, "alpha", 4, 100, [1, 2], []⟩ [2]
      (by decide) (by rfl) (by rfl) (by decide)⟩

/-! ## Claim theorems: Title Resolver -/

/-- C6: the source's search function coincides with the Title Resolver
algorithm exactly as the spec words it — phrase search ordered by
`ratingsCount` descending truncated to `k` first, and only on zero phrase
matches the fuzzy fallback: top-`k` titles by similarity, re-fetch, re-sort
by `ratingsCount` descending, truncate to `k`.  (The two differ textually in
when the emptiness test happens — the code tests the already-truncated result
— but the outputs agree for every query, catalog, limit, match predicate and
scorer.) -/
theorem search_books_matches_resolveSpec (f : String → String → Bool)
    (s : String → String → Nat) (catalog : List Book) (q : String) (k : Nat) :
    search_books_streamlit f s catalog q k = resolveSpec f s catalog q k := by
  by_cases h : catalog.filter (fun b => f (mkFts5QueryStr q) b.title) = []
  · rw [search_eq_fallback f s catalog q k h]
    simp only [resolveSpec, h, List.isEmpty_nil, if_true]
  · cases k with
    | zero => simp [search_books_streamlit, resolveSpec]
    | succ n =>
      rw [search_eq_phrase f s catalog q (n + 1) h (by omega)]
      simp only [resolveSpec]
      rw [if_neg (by simpa using h)]

/-- C8: when the phrase phase matches nothing, the resolver falls through to
the fuzzy phase and returns its (possibly empty) result of at most `k`
candidates.  The embedded function is total — the source raises nothing on
this path (SQLite accepts an empty `IN ()` list) — and an empty result is an
ordinary return value, which the caller reports as an informational warning
rather than an error. -/
theorem search_falls_back_without_error (f : String → String → Bool)
    (s : String → String → Nat) (catalog : List Book) (q : String) (k : Nat)
    (h : catalog.filter (fun b => f (mkFts5QueryStr q) b.title) = []) :
    search_books_streamlit f s catalog q k =
      (((catalog.filter (fun b =>
          (rapidfuzzExtract s q (catalog.map (fun b2 => b2.title)) k).contains
            b.title)).insertionSort byRatingsDesc).take k).map toCandidate ∧
    (search_books_streamlit f s catalog q k).length ≤ k := by
  refine ⟨search_eq_fallback f s catalog q k h, ?_⟩
  rw [search_eq_fallback f s catalog q k h, List.length_map, List.length_take]
  exact Nat.min_le_left _ _

/-- C8 (witness): a match predicate that accepts nothing sends the query to
the fallback on `demoCatalogA`. -/
theorem search_falls_back_without_error_witness :
    demoCatalogA.filter (fun b => (fun _ _ => false : String → String → Bool)
      (mkFts5QueryStr "zzz") b.title) = [] ∧
    (search_books_streamlit (fun _ _ => false) (fun _ _ => 0) demoCatalogA "zzz" 5 =
      (((demoCatalogA.filter (fun b =>
          (rapidfuzzExtract (fun _ _ => 0) "zzz"
            (demoCatalogA.map (fun b2 => b2.title)) 5).contains
            b.title)).insertionSort byRatingsDesc).take 5).map toCandidate ∧
    (search_books_streamlit (fun _ _ => false) (fun _ _ => 0) demoCatalogA "zzz" 5).length ≤ 5) :=
  ⟨by rfl, search_falls_back_without_error (fun _ _ => false) (fun _ _ => 0)
    demoCatalogA "zzz" 5 (by rfl)⟩

/-- C10: on a non-empty catalog, a query with zero phrase matches still gets
at least one candidate (for a positive limit): the fuzzy fallback ranks every
title with no minimum-similarity threshold, so the empty "no matches" result
is unreachable through the fallback path. -/
theorem search_fallback_nonempty (f : String → String → Bool)
    (s : String → String → Nat) (catalog : List Book) (q : String) (k : Nat)
    (hne : catalog ≠ []) (h : catalog.filter (fun b => f (mkFts5QueryStr q) b.title) = [])
    (hk : 1 ≤ k) :
    search_books_streamlit f s catalog q k ≠ [] := by
  rw [search_eq_fallback f s catalog q k h]
  have htne : catalog.map (fun b => b.title) ≠ [] := by
    simpa using hne
  have hsortlen : ((catalog.map (fun b => b.title)).insertionSort
      (byScoreDesc s q)).length = (catalog.map (fun b => b.title)).length :=
    List.length_insertionSort _ _
  have hextne : rapidfuzzExtract s q (catalog.map (fun b => b.title)) k ≠ [] := by
    rw [rapidfuzzExtract, Ne, List.take_eq_nil_iff]
    push_neg
    refine ⟨by omega, ?_⟩
    intro hcontra
    rw [hcontra] at hsortlen
    exact htne (List.length_eq_zero.mp hsortlen.symm)
  obtain ⟨t, ht⟩ := List.exists_mem_of_ne_nil _ hextne
  have htitle : t ∈ catalog.map (fun b => b.title) :=
    (List.perm_insertionSort _ _).subset (List.take_subset _ _ ht)
  obtain ⟨b, hb, hbt⟩ := List.mem_map.mp htitle
  have hbf : b ∈ catalog.filter (fun b2 =>
      (rapidfuzzExtract s q (catalog.map (fun b3 => b3.title)) k).contains b2.title) := by
    refine List.mem_filter.mpr ⟨hb, ?_⟩
    rw [hbt]
    simpa using ht
  have hfilterne : catalog.filter (fun b2 =>
      (rapidfuzzExtract s q (catalog.map (fun b3 => b3.title)) k).contains b2.title) ≠ [] :=
    List.ne_nil_of_mem hbf
  have hfsortlen := List.length_insertionSort byRatingsDesc
    (catalog.filter (fun b2 =>
      (rapidfuzzExtract s q (catalog.map (fun b3 => b3.title)) k).contains b2.title))
  intro hcontra
  rw [List.map_eq_nil_iff, List.take_eq_nil_iff] at hcontra
  rcases hcontra with h0 | hnil
  · omega
  · rw [hnil] at hfsortlen
    exact hfilterne (List.length_eq_zero.mp hfsortlen.symm)

/-- C10 (witness): the all-rejecting match predicate on the non-empty
`demoCatalogA` still yields a candidate through the fallback at `k = 1`. -/
theorem search_fallback_nonempty_witness :
    demoCatalogA ≠ [] ∧
    demoCatalogA.filter (fun b => (fun _ _ => false : String → String → Bool)
      (mkFts5QueryStr "qqq") b.title) = [] ∧
    search_books_streamlit (fun _ _ => false) (fun _ _ => 0) demoCatalogA "qqq" 1 ≠ [] :=
  ⟨by decide, by rfl,
    search_fallback_nonempty (fun _ _ => false) (fun _ _ => 0) demoCatalogA "qqq" 1
      (by decide) (by rfl) (by decide)⟩

/-- C7 (code bug): the code builds the FTS5 query by only wrapping the raw
query in one pair of double quotes, without doubling quote characters inside
it.  For a query containing a double quote (for example `say "hi`) the
resulting string ends inside an unterminated FTS5 string, which the engine
rejects as malformed (an `sqlite3.OperationalError`), violating the spec's
requirement that the query be escaped so it is matched literally and never
rejected; even with balanced quotes (`say "hi"`) the result is not one single
literal phrase.  Quote-free queries, in contrast, do parse as the intended
single literal phrase. -/
theorem fts5_query_escaping_bug :
    fts5ScanOk (mkFts5QueryStr "say \"hi") = false ∧
    fts5SinglePhrase (mkFts5QueryStr "say \"hi\"") = none ∧
    fts5SinglePhrase (mkFts5QueryStr "harry potter") = some "harry potter".data := by
  refine ⟨by rfl, by rfl, by rfl⟩

end BookRec
